import Mathlib

/-!
# MoneyMate transaction ledger: a shallow embedding

This file embeds the core logic of the MoneyMate personal-finance tracker
(`TransactionManager`, `BudgetManager`, the budget-alert rendering of
`FinanceApp.renderBudgets`, `FinancialHealthScore.calculateSpendingConsistency`,
`ExportManager.toCSV` and the import validation of `FinanceApp`) into Lean and
proves the behavioural properties stated for it.

Modelling conventions:
* JavaScript numbers (amounts, timestamps) are modelled as rationals `ℚ`.
* Calendar dates (the ISO `YYYY-MM-DD` strings of the source) are modelled as
  `MM.Date` triples; comparison of ISO date strings is lexicographic, which on
  the triple representation is the lexicographic order `MM.dle`.
* JavaScript `Date` day arithmetic (`setDate(getDate() - i)`) is modelled by
  `MM.addDays` via the standard civil-from-days / days-from-civil conversion,
  and `setMonth(getMonth() + 1)` (with JavaScript's day-overflow
  normalisation) by `MM.addMonth`.
* The JSON serialisation used for history snapshots
  (`JSON.stringify` / `JSON.parse`) is a faithful round trip on the data
  involved, so snapshots are stored as plain transaction lists.
-/

namespace MM

/-- A calendar date, the model of the ISO `YYYY-MM-DD` strings of the source. -/
structure Date where
  y : Int
  m : Int
  d : Int
deriving DecidableEq, Repr

/-- Leap-year predicate of the Gregorian calendar. -/
def isLeap (y : Int) : Bool :=
  y % 4 == 0 && (y % 100 != 0 || y % 400 == 0)

/-- Number of days in month `m` of year `y` (months are 1-based). -/
def daysInMonth (y m : Int) : Int :=
  if m == 2 then (if isLeap y then 29 else 28)
  else if m == 4 || m == 6 || m == 9 || m == 11 then 30
  else 31

/-- Days since 1970-01-01 of a civil date (Hinnant's `days_from_civil`);
this is the day-count arithmetic underlying the JavaScript `Date` object. -/
def daysFromCivil (dt : Date) : Int :=
  let y := dt.y - (if dt.m ≤ 2 then 1 else 0)
  let era := (if 0 ≤ y then y else y - 399) / 400
  let yoe := y - era * 400
  let doy := (153 * (dt.m + (if 2 < dt.m then -3 else 9)) + 2) / 5 + dt.d - 1
  let doe := yoe * 365 + yoe / 4 - yoe / 100 + doy
  era * 146097 + doe - 719468

/-- Civil date of a count of days since 1970-01-01 (Hinnant's
`civil_from_days`). -/
def civilFromDays (z0 : Int) : Date :=
  let z := z0 + 719468
  let era := (if 0 ≤ z then z else z - 146096) / 146097
  let doe := z - era * 146097
  let yoe := (doe - doe / 1460 + doe / 36524 - doe / 146096) / 365
  let y := yoe + era * 400
  let doy := doe - (365 * yoe + yoe / 4 - yoe / 100)
  let mp := (5 * doy + 2) / 153
  let d := doy - (153 * mp + 2) / 5 + 1
  let m := mp + (if mp < 10 then 3 else -9)
  ⟨y + (if m ≤ 2 then 1 else 0), m, d⟩

/-- `date.setDate(date.getDate() + n)`: shift a civil date by `n` days. -/
def addDays (dt : Date) (n : Int) : Date :=
  civilFromDays (daysFromCivil dt + n)

/-- `date.setMonth(date.getMonth() + 1)`: advance a date by one calendar
month with JavaScript's normalisation — a day-of-month that overflows the
target month rolls into the following month (e.g. Jan 31 → Mar 3). -/
def addMonth (dt : Date) : Date :=
  let y1 := if dt.m == 12 then dt.y + 1 else dt.y
  let m1 := if dt.m == 12 then 1 else dt.m + 1
  let dim := daysInMonth y1 m1
  if dt.d ≤ dim then ⟨y1, m1, dt.d⟩
  else if m1 == 12 then ⟨y1 + 1, 1, dt.d - dim⟩
  else ⟨y1, m1 + 1, dt.d - dim⟩

/-- Lexicographic order on dates: the model of `<=` on ISO date strings. -/
def dle (a b : Date) : Bool :=
  a.y < b.y || (a.y == b.y && (a.m < b.m || (a.m == b.m && a.d ≤ b.d)))

/-- Transaction type: the `type` field, `'income'` or `'expense'`. -/
inductive TxType where
  | income
  | expense
deriving DecidableEq, Repr

/-- A transaction record.  `ty` is the source's `type` field, `descr` its
`description`; `timestamp` is the numeric unique key
(`Date.now() + Math.random()`), modelled as a rational. -/
structure Transaction where
  ty : TxType
  amount : ℚ
  category : String
  date : Date
  descr : String
  recurring : Bool
  timestamp : ℚ
deriving DecidableEq, Repr

namespace TransactionManager

/-- The state of a `TransactionManager`: the live transaction list, the
history log of snapshots (each snapshot a full copy of the live list, the
model of its `JSON.stringify` image) and the history cursor. -/
structure TM where
  transactions : List Transaction
  history : List (List Transaction)
  historyIndex : Int
deriving DecidableEq, Repr

/-- The constructor state: no transactions, empty history, cursor `-1`
(`maxHistory` is the literal constant 20, inlined below). -/
def emptyTM : TM := ⟨[], [], -1⟩

/-- `saveHistory()`: truncate the log after the cursor, push a snapshot of
the live list, then either evict the oldest snapshot (cursor unchanged) when
the capacity 20 is exceeded or advance the cursor. -/
def saveHistory (st : TM) : TM :=
  let h := st.history.take (st.historyIndex + 1).toNat ++ [st.transactions]
  if 20 < h.length then
    { st with history := h.tail }
  else
    { st with history := h, historyIndex := st.historyIndex + 1 }

/-- `loadFromStorage()`: install the stored list (or `[]`) and seed the
history with it. -/
def loadFromStorage (stored : Option (List Transaction)) (st : TM) : TM :=
  saveHistory { st with transactions := stored.getD [] }

/-- `add(transaction)`: append to the live list and record a snapshot
(the persistence call does not affect the in-memory state). -/
def add (t : Transaction) (st : TM) : TM :=
  saveHistory { st with transactions := st.transactions ++ [t] }

/-- `delete(timestamp)`: drop every transaction with the given timestamp and
record a snapshot. -/
def deleteTx (ts : ℚ) (st : TM) : TM :=
  saveHistory { st with transactions := st.transactions.filter (fun t => t.timestamp ≠ ts) }

/-- `getAll()`: the live list (the source returns a defensive copy). -/
def getAll (st : TM) : List Transaction := st.transactions

/-- `canUndo()`: `historyIndex > 0`. -/
def canUndo (st : TM) : Bool := 0 < st.historyIndex

/-- `canRedo()`: `historyIndex < history.length - 1`. -/
def canRedo (st : TM) : Bool := st.historyIndex < (st.history.length : Int) - 1

/-- `undo()`: when possible, move the cursor back and restore that snapshot,
returning `true`; otherwise return `false` unchanged. -/
def undo (st : TM) : TM × Bool :=
  if canUndo st then
    ({ st with historyIndex := st.historyIndex - 1,
               transactions := (st.history[(st.historyIndex - 1).toNat]?).getD [] }, true)
  else (st, false)

/-- `redo()`: when possible, move the cursor forward and restore that
snapshot, returning `true`; otherwise return `false` unchanged. -/
def redo (st : TM) : TM × Bool :=
  if canRedo st then
    ({ st with historyIndex := st.historyIndex + 1,
               transactions := (st.history[(st.historyIndex + 1).toNat]?).getD [] }, true)
  else (st, false)

/-- Sum of the amounts of a transaction list (`reduce((sum, t) => sum + t.amount, 0)`). -/
def sumAmounts (l : List Transaction) : ℚ := l.foldl (fun s t => s + t.amount) 0

/-- One `{date, amount}` entry of the 7-day spending trend. -/
structure TrendEntry where
  date : Date
  amount : ℚ
deriving DecidableEq, Repr

/-- `getSpendingTrend()`: for `i = 6` down to `0`, the date `today − i` days
together with the summed expense amounts dated exactly that day.  The entry
for `i` is produced at position `6 − i`, hence position `k` holds day
`today − (6 − k)`. -/
def getSpendingTrend (today : Date) (st : TM) : List TrendEntry :=
  (List.range 7).map (fun (k : ℕ) =>
    let d := addDays today ((k : Int) - 6)
    { date := d
      amount := sumAmounts (st.transactions.filter
        (fun t => decide (t.ty = TxType.expense ∧ t.date = d))) })

/-- The clone of a recurring transaction: same fields, `date` set to today,
a fresh timestamp. -/
def cloneTx (today : Date) (ts : ℚ) (t : Transaction) : Transaction :=
  { t with date := today, timestamp := ts }

/-- The `forEach` loop body of `processRecurring()`: for each element of the
pre-computed snapshot whose date plus one month is `<= today`, `add` a clone
with the next fresh timestamp (`fresh` models the successive values of
`Date.now() + Math.random()`). -/
def processLoop (today : Date) (fresh : Nat → ℚ) : List Transaction → Nat → TM → TM
  | [], _, st => st
  | t :: rest, i, st =>
    if dle (addMonth t.date) today then
      processLoop today fresh rest (i + 1) (add (cloneTx today (fresh i) t) st)
    else
      processLoop today fresh rest i st

/-- `processRecurring()`: take the fixed snapshot of recurring transactions,
then run the loop over it. -/
def processRecurring (today : Date) (fresh : Nat → ℚ) (st : TM) : TM :=
  processLoop today fresh (st.transactions.filter (fun t => t.recurring)) 0 st

/-- Well-formedness of a seeded ledger: the cursor is in range, the log is
within its capacity 20, and the snapshot at the cursor is the live list.
`loadFromStorage` establishes this and every operation preserves it. -/
def Inv (st : TM) : Prop :=
  0 ≤ st.historyIndex ∧ st.historyIndex < st.history.length ∧
    st.history.length ≤ 20 ∧ st.history[st.historyIndex.toNat]? = some st.transactions

/-- When the log is strictly below capacity, `saveHistory` truncates after
the cursor, pushes the current list and advances the cursor. -/
theorem saveHistory_eq_push (st : TM) (n : ℕ) (h1 : st.historyIndex = (n : ℤ))
    (h3 : n < st.history.length) (h2 : n + 2 ≤ 20) :
    saveHistory st =
      { st with history := st.history.take (n + 1) ++ [st.transactions],
                historyIndex := (n : ℤ) + 1 } := by
  unfold saveHistory
  have ht : (st.historyIndex + 1).toNat = n + 1 := by omega
  rw [ht]
  have hlen : (st.history.take (n + 1) ++ [st.transactions]).length = n + 2 := by
    simp [List.length_take]
    omega
  rw [if_neg (by omega), h1]

/-- When the cursor sits at the capacity bound, `saveHistory` pushes the
current list and evicts the oldest snapshot, leaving the cursor in place. -/
theorem saveHistory_eq_shift (st : TM) (h1 : st.historyIndex = (19 : ℤ))
    (h3 : st.history.length = 20) :
    saveHistory st = { st with history := st.history.tail ++ [st.transactions] } := by
  unfold saveHistory
  have ht : (st.historyIndex + 1).toNat = 20 := by omega
  rw [ht, List.take_of_length_le (by omega)]
  have hne : st.history ≠ [] := by
    intro h; rw [h] at h3; simp at h3
  have hlen : (st.history ++ [st.transactions]).length = 21 := by simp [h3]
  rw [if_pos (by omega), List.tail_append_of_ne_nil hne]

end TransactionManager

end MM

namespace MM

namespace TransactionManager

/-- After recording a snapshot of a new live list `tx'` over a well-formed
state, `undo` succeeds and restores the previous live list, after which
`redo` succeeds and restores `tx'` again.  This is the core of the
behaviour of `add` and `delete` with respect to undo/redo. -/
theorem record_then_undo_redo (st : TM) (tx' : List Transaction) (hInv : Inv st) :
    canUndo (saveHistory { st with transactions := tx' }) = true ∧
    (undo (saveHistory { st with transactions := tx' })).2 = true ∧
    (undo (saveHistory { st with transactions := tx' })).1.transactions = st.transactions ∧
    canRedo (undo (saveHistory { st with transactions := tx' })).1 = true ∧
    (redo (undo (saveHistory { st with transactions := tx' })).1).2 = true ∧
    (redo (undo (saveHistory { st with transactions := tx' })).1).1.transactions = tx' := by
  obtain ⟨tx, h, i⟩ := st
  obtain ⟨h0, hlt, hle, hsnap⟩ := hInv
  simp only at h0 hlt hle hsnap ⊢
  obtain ⟨n, rfl⟩ : ∃ n : ℕ, i = (n : ℤ) := ⟨i.toNat, by omega⟩
  have hn : ((n : ℤ)).toNat = n := by omega
  rw [hn] at hsnap
  have hnlen : n < h.length := by exact_mod_cast hlt
  by_cases hcap : n + 2 ≤ 20
  · -- push branch: the log is below capacity
    have hsv : saveHistory ⟨tx', h, (n : ℤ)⟩ =
        ⟨tx', h.take (n + 1) ++ [tx'], (n : ℤ) + 1⟩ := by
      rw [saveHistory_eq_push _ n rfl hnlen hcap]
    rw [hsv]
    have hcu : canUndo ⟨tx', h.take (n + 1) ++ [tx'], (n : ℤ) + 1⟩ = true := by
      simp only [canUndo, decide_eq_true_eq]; omega
    have hidx : (((n : ℤ) + 1) - 1).toNat = n := by omega
    have hget : (h.take (n + 1) ++ [tx'])[n]? = some tx := by
      rw [List.getElem?_append_left (by simp [List.length_take]; omega),
        List.getElem?_take_of_lt (by omega), hsnap]
    have hundo : undo ⟨tx', h.take (n + 1) ++ [tx'], (n : ℤ) + 1⟩ =
        (⟨tx, h.take (n + 1) ++ [tx'], (n : ℤ)⟩, true) := by
      unfold undo
      rw [if_pos hcu, hidx, hget]
      simp
    rw [hundo]
    have hlen2 : (h.take (n + 1) ++ [tx']).length = n + 2 := by
      simp [List.length_take]; omega
    have hcr : canRedo ⟨tx, h.take (n + 1) ++ [tx'], (n : ℤ)⟩ = true := by
      simp only [canRedo, decide_eq_true_eq, hlen2]; push_cast; omega
    have hgetr : (h.take (n + 1) ++ [tx'])[n + 1]? = some tx' := by
      have := List.getElem?_concat_length (h.take (n + 1)) tx'
      rwa [List.length_take, Nat.min_eq_left (by omega)] at this
    have hredo : redo ⟨tx, h.take (n + 1) ++ [tx'], (n : ℤ)⟩ =
        (⟨tx', h.take (n + 1) ++ [tx'], (n : ℤ) + 1⟩, true) := by
      unfold redo
      rw [if_pos hcr]
      have : (((n : ℤ)) + 1).toNat = n + 1 := by omega
      rw [this, hgetr]
      simp
    rw [hredo]
    exact ⟨hcu, rfl, rfl, hcr, rfl, rfl⟩
  · -- shift branch: the cursor is at the capacity bound, so n = 19 and the
    -- log already holds 20 snapshots
    have hn19 : n = 19 := by omega
    have hlen20 : h.length = 20 := by omega
    rw [hn19] at hsnap
    have hsv : saveHistory ⟨tx', h, (n : ℤ)⟩ =
        ⟨tx', h.tail ++ [tx'], (n : ℤ)⟩ := by
      rw [saveHistory_eq_shift _ (by simp; omega) hlen20]
    rw [hsv]
    have htl : h.tail.length = 19 := by simp [hlen20]
    have hcu : canUndo ⟨tx', h.tail ++ [tx'], (n : ℤ)⟩ = true := by
      simp only [canUndo, decide_eq_true_eq]; omega
    have hidx : ((n : ℤ) - 1).toNat = 18 := by omega
    have hget : (h.tail ++ [tx'])[18]? = some tx := by
      rw [List.getElem?_append_left (by omega), List.getElem?_tail]
      exact hsnap
    have hundo : undo ⟨tx', h.tail ++ [tx'], (n : ℤ)⟩ =
        (⟨tx, h.tail ++ [tx'], (n : ℤ) - 1⟩, true) := by
      unfold undo
      rw [if_pos hcu, hidx, hget]
      simp
    rw [hundo]
    have hlen2 : (h.tail ++ [tx']).length = 20 := by simp [htl]
    have hcr : canRedo ⟨tx, h.tail ++ [tx'], (n : ℤ) - 1⟩ = true := by
      simp only [canRedo, decide_eq_true_eq, hlen2]; omega
    have hgetr : (h.tail ++ [tx'])[19]? = some tx' := by
      have := List.getElem?_concat_length h.tail tx'
      rwa [htl] at this
    have hidx2 : ((n : ℤ) - 1 + 1).toNat = 19 := by omega
    have hredo : redo ⟨tx, h.tail ++ [tx'], (n : ℤ) - 1⟩ =
        (⟨tx', h.tail ++ [tx'], (n : ℤ) - 1 + 1⟩, true) := by
      unfold redo
      rw [if_pos hcr, hidx2, hgetr]
      simp
    rw [hredo]
    exact ⟨hcu, rfl, rfl, hcr, rfl, rfl⟩

/-- C1: for every well-formed seeded ledger and every transaction `T` not
already live, `add T` then `undo` succeeds and `getAll` excludes `T`; a
subsequent `redo` succeeds and `getAll` includes `T` again; and at each step
`canUndo` and `canRedo` are exactly the cursor-bound tests
`historyIndex > 0` and `historyIndex < history.length - 1`. -/
theorem add_undo_redo_roundtrip (st : TM) (T : Transaction)
    (hInv : Inv st) (hT : T ∉ st.transactions) :
    canUndo (add T st) = true ∧
    (undo (add T st)).2 = true ∧
    T ∉ getAll (undo (add T st)).1 ∧
    canRedo (undo (add T st)).1 = true ∧
    (redo (undo (add T st)).1).2 = true ∧
    T ∈ getAll (redo (undo (add T st)).1).1 ∧
    canUndo (add T st) = decide (0 < (add T st).historyIndex) ∧
    canRedo (add T st) = decide ((add T st).historyIndex < ((add T st).history.length : ℤ) - 1) ∧
    canUndo (undo (add T st)).1 = decide (0 < (undo (add T st)).1.historyIndex) ∧
    canRedo (undo (add T st)).1
      = decide ((undo (add T st)).1.historyIndex < (((undo (add T st)).1.history.length : ℤ) - 1)) := by
  simp only [add, getAll]
  obtain ⟨k1, k2, k3, k4, k5, k6⟩ := record_then_undo_redo st (st.transactions ++ [T]) hInv
  exact ⟨k1, k2, by rw [k3]; exact hT, k4, k5, by rw [k6]; simp, rfl, rfl, rfl, rfl⟩

/-- A freshly loaded empty ledger, used in witnesses. -/
def seededEmpty : TM := loadFromStorage none emptyTM

/-- A concrete transaction, used in witnesses. -/
def sampleTx : Transaction :=
  { ty := TxType.expense, amount := 50, category := "food", date := ⟨2025, 10, 1⟩,
    descr := "lunch", recurring := false, timestamp := 1 }

/-- C1, witness: the round-trip theorem applied to the freshly loaded empty
ledger and a concrete transaction. -/
theorem add_undo_redo_roundtrip_witness :
    Inv seededEmpty ∧ sampleTx ∉ seededEmpty.transactions ∧
    (canUndo (add sampleTx seededEmpty) = true ∧
     (undo (add sampleTx seededEmpty)).2 = true ∧
     sampleTx ∉ getAll (undo (add sampleTx seededEmpty)).1 ∧
     canRedo (undo (add sampleTx seededEmpty)).1 = true ∧
     (redo (undo (add sampleTx seededEmpty)).1).2 = true ∧
     sampleTx ∈ getAll (redo (undo (add sampleTx seededEmpty)).1).1 ∧
     canUndo (add sampleTx seededEmpty) = decide (0 < (add sampleTx seededEmpty).historyIndex) ∧
     canRedo (add sampleTx seededEmpty)
       = decide ((add sampleTx seededEmpty).historyIndex
           < ((add sampleTx seededEmpty).history.length : ℤ) - 1) ∧
     canUndo (undo (add sampleTx seededEmpty)).1
       = decide (0 < (undo (add sampleTx seededEmpty)).1.historyIndex) ∧
     canRedo (undo (add sampleTx seededEmpty)).1
       = decide ((undo (add sampleTx seededEmpty)).1.historyIndex
           < (((undo (add sampleTx seededEmpty)).1.history.length : ℤ) - 1))) :=
  ⟨⟨by decide, by decide, by decide, by decide⟩, by decide,
    add_undo_redo_roundtrip seededEmpty sampleTx
      ⟨by decide, by decide, by decide, by decide⟩ (by decide)⟩

/-- A mutating ledger operation: `add` of a transaction or `delete` of a
timestamp (each records one history snapshot). -/
inductive Op where
  | addT : Transaction → Op
  | delT : ℚ → Op
deriving DecidableEq, Repr

/-- Apply one mutating operation. -/
def applyOp : Op → TM → TM
  | Op.addT t, st => add t st
  | Op.delT ts, st => deleteTx ts st

/-- Apply a sequence of mutating operations left to right. -/
def applyOps : List Op → TM → TM
  | [], st => st
  | op :: rest, st => applyOps rest (applyOp op st)

/-- Call `undo()` `k` times in a row, keeping the state of each call. -/
def undoIter : Nat → TM → TM
  | 0, st => st
  | k + 1, st => undoIter k (undo st).1

/-- Shape of `saveHistory` on a state whose cursor sits at the end of the
log: the log grows by one up to the capacity 20 and the cursor follows. -/
theorem saveHistory_shape (st : TM) (L : ℕ) (hL : st.history.length = L)
    (hidx : st.historyIndex = (L : ℤ) - 1) (h1 : 1 ≤ L) (h20 : L ≤ 20) :
    (saveHistory st).history.length = min (L + 1) 20 ∧
    (saveHistory st).historyIndex = ((min (L + 1) 20 : ℕ) : ℤ) - 1 := by
  by_cases hc : L ≤ 19
  · rw [saveHistory_eq_push st (L - 1) (by omega) (by omega) (by omega)]
    constructor
    · simp [List.length_take]
      omega
    · simp
      omega
  · have hL20 : L = 20 := by omega
    rw [saveHistory_eq_shift st (by omega) (by omega)]
    have hne : st.history ≠ [] := by
      intro h; rw [h] at hL; simp at hL; omega
    constructor
    · simp [List.length_tail]
      omega
    · simp
      omega

/-- `applyOp` only ever records a snapshot over a possibly changed live
list, so it moves the log shape exactly as `saveHistory` does. -/
theorem applyOp_shape (op : Op) (st : TM) (L : ℕ) (hL : st.history.length = L)
    (hidx : st.historyIndex = (L : ℤ) - 1) (h1 : 1 ≤ L) (h20 : L ≤ 20) :
    (applyOp op st).history.length = min (L + 1) 20 ∧
    (applyOp op st).historyIndex = ((min (L + 1) 20 : ℕ) : ℤ) - 1 := by
  cases op with
  | addT t =>
    exact saveHistory_shape { st with transactions := st.transactions ++ [t] } L hL hidx h1 h20
  | delT ts =>
    exact saveHistory_shape
      { st with transactions := st.transactions.filter (fun t => t.timestamp ≠ ts) }
      L hL hidx h1 h20

/-- Shape of the state after a whole operation sequence: the log holds
`min (L + n) 20` snapshots and the cursor sits at its end. -/
theorem applyOps_shape (ops : List Op) : ∀ (st : TM) (L : ℕ),
    st.history.length = L → st.historyIndex = (L : ℤ) - 1 → 1 ≤ L → L ≤ 20 →
    (applyOps ops st).history.length = min (L + ops.length) 20 ∧
    (applyOps ops st).historyIndex = ((min (L + ops.length) 20 : ℕ) : ℤ) - 1 := by
  induction ops with
  | nil =>
    intro st L hL hidx h1 h20
    simp only [applyOps, List.length_nil]
    constructor
    · omega
    · rw [hidx]; congr 1; omega
  | cons op rest ih =>
    intro st L hL hidx h1 h20
    simp only [applyOps, List.length_cons]
    obtain ⟨a, b⟩ := applyOp_shape op st L hL hidx h1 h20
    obtain ⟨a2, b2⟩ := ih (applyOp op st) (min (L + 1) 20) a b (by omega) (by omega)
    constructor
    · omega
    · rw [b2]; congr 1; omega

/-- The freshly loaded ledger over stored contents. -/
theorem loadFromStorage_emptyTM (stored : Option (List Transaction)) :
    loadFromStorage stored emptyTM = ⟨stored.getD [], [stored.getD []], 0⟩ := rfl

/-- `undo` never changes the history log itself. -/
theorem undo_history (st : TM) : (undo st).1.history = st.history := by
  unfold undo; split <;> rfl

/-- With a positive cursor, `undo` succeeds and moves the cursor back one. -/
theorem undo_index (st : TM) (h : 0 < st.historyIndex) :
    (undo st).1.historyIndex = st.historyIndex - 1 ∧ (undo st).2 = true := by
  unfold undo
  rw [if_pos (by simpa [canUndo] using h)]
  exact ⟨rfl, rfl⟩

/-- Iterated undo within the available range decrements the cursor by `k`
and leaves the log unchanged. -/
theorem undoIter_shape (k : ℕ) : ∀ st : TM, (k : ℤ) ≤ st.historyIndex →
    (undoIter k st).historyIndex = st.historyIndex - k ∧
    (undoIter k st).history = st.history := by
  induction k with
  | zero => intro st _; simp [undoIter]
  | succ k ih =>
    intro st h
    simp only [undoIter]
    have h0 : 0 < st.historyIndex := by omega
    have hu := undo_index st h0
    obtain ⟨a, b⟩ := ih (undo st).1 (by rw [hu.1]; omega)
    refine ⟨?_, by rw [b, undo_history]⟩
    rw [a, hu.1]
    push_cast
    omega

/-- C2: applying more than 20 mutating operations (adds or deletes) to a
freshly loaded ledger, the history log never exceeds 20 snapshots at any
point of the sequence, `undo` succeeds on 19 consecutive calls from the
final state, and after the 19th `canUndo` is false. -/
theorem history_eviction (init : Option (List Transaction)) (ops : List Op)
    (hops : 20 < ops.length) :
    (∀ pre : List Op, (applyOps pre (loadFromStorage init emptyTM)).history.length ≤ 20) ∧
    (∀ k : ℕ, k < 19 →
      (undo (undoIter k (applyOps ops (loadFromStorage init emptyTM)))).2 = true) ∧
    canUndo (undoIter 19 (applyOps ops (loadFromStorage init emptyTM))) = false := by
  have h0 : (loadFromStorage init emptyTM).history.length = 1 := by
    rw [loadFromStorage_emptyTM]; rfl
  have h0i : (loadFromStorage init emptyTM).historyIndex = (1 : ℤ) - 1 := by
    rw [loadFromStorage_emptyTM]; rfl
  obtain ⟨hlen, hidx⟩ :=
    applyOps_shape ops (loadFromStorage init emptyTM) 1 h0 h0i (by omega) (by omega)
  have hidx19 : (applyOps ops (loadFromStorage init emptyTM)).historyIndex = 19 := by
    rw [hidx]; omega
  refine ⟨?_, ?_, ?_⟩
  · intro pre
    obtain ⟨hl, _⟩ :=
      applyOps_shape pre (loadFromStorage init emptyTM) 1 h0 h0i (by omega) (by omega)
    omega
  · intro k hk
    obtain ⟨hi, _⟩ := undoIter_shape k (applyOps ops (loadFromStorage init emptyTM))
      (by rw [hidx19]; exact_mod_cast by omega)
    exact (undo_index _ (by rw [hi, hidx19]; omega)).2
  · obtain ⟨hi, _⟩ := undoIter_shape 19 (applyOps ops (loadFromStorage init emptyTM))
      (by rw [hidx19]; norm_num)
    simp only [canUndo, hi, hidx19]
    norm_num

/-- C2, witness: 21 delete operations on the freshly loaded empty ledger. -/
theorem history_eviction_witness :
    20 < (List.replicate 21 (Op.delT 0)).length ∧
    ((∀ pre : List Op,
        (applyOps pre (loadFromStorage none emptyTM)).history.length ≤ 20) ∧
     (∀ k : ℕ, k < 19 →
        (undo (undoIter k (applyOps (List.replicate 21 (Op.delT 0))
          (loadFromStorage none emptyTM)))).2 = true) ∧
     canUndo (undoIter 19 (applyOps (List.replicate 21 (Op.delT 0))
        (loadFromStorage none emptyTM))) = false) :=
  ⟨by decide, history_eviction none (List.replicate 21 (Op.delT 0)) (by decide)⟩

/-- `saveHistory` never changes the live transaction list. -/
theorem saveHistory_transactions (st : TM) :
    (saveHistory st).transactions = st.transactions := by
  simp only [saveHistory]
  split <;> rfl

/-- C8, counterexample: on the freshly loaded empty ledger no transaction
has timestamp 5 and `canUndo` is false; `delete(5)` leaves the live set
unchanged but still pushes a history snapshot, after which `canUndo` is
true — so the undo/redo state is not unchanged, contrary to the claim. -/
theorem delete_notfound_cex :
    (loadFromStorage none emptyTM).transactions.all
      (fun t => t.timestamp ≠ (5 : ℚ)) = true ∧
    (deleteTx 5 (loadFromStorage none emptyTM)).transactions
      = (loadFromStorage none emptyTM).transactions ∧
    canUndo (loadFromStorage none emptyTM) = false ∧
    canUndo (deleteTx 5 (loadFromStorage none emptyTM)) = true ∧
    (deleteTx 5 (loadFromStorage none emptyTM)).history
      ≠ (loadFromStorage none emptyTM).history := by
  decide

/-- C8, amended: `delete ts` keeps exactly the transactions whose timestamp
differs from `ts`, in their original relative order (it is `List.filter`);
when no live transaction matches, the live set is unchanged — but a history
snapshot is still recorded, and from a well-formed state the subsequent
`undo` succeeds and restores an identical live list. -/
theorem delete_semantics (st : TM) (ts : ℚ) :
    (deleteTx ts st).transactions = st.transactions.filter (fun t => t.timestamp ≠ ts) ∧
    (∀ t : Transaction, t ∈ (deleteTx ts st).transactions ↔
      t ∈ st.transactions ∧ t.timestamp ≠ ts) ∧
    ((∀ t ∈ st.transactions, t.timestamp ≠ ts) →
      (deleteTx ts st).transactions = st.transactions) ∧
    (Inv st → (∀ t ∈ st.transactions, t.timestamp ≠ ts) →
      (undo (deleteTx ts st)).2 = true ∧
      (undo (deleteTx ts st)).1.transactions = st.transactions) := by
  have h1 : (deleteTx ts st).transactions
      = st.transactions.filter (fun t => t.timestamp ≠ ts) :=
    saveHistory_transactions _
  have hfix : (∀ t ∈ st.transactions, t.timestamp ≠ ts) →
      st.transactions.filter (fun t => t.timestamp ≠ ts) = st.transactions := by
    intro h
    exact List.filter_eq_self.mpr (fun a ha => by simpa using h a ha)
  refine ⟨h1, ?_, fun h => by rw [h1, hfix h], fun hInv h => ?_⟩
  · intro t
    rw [h1]
    simp [List.mem_filter]
  · obtain ⟨_, k2, k3, _, _, _⟩ :=
      record_then_undo_redo st (st.transactions.filter (fun t => t.timestamp ≠ ts)) hInv
    exact ⟨k2, k3⟩

/-- C8, witness for the amended theorem: deleting the absent timestamp 5
from the freshly loaded empty ledger. -/
theorem delete_semantics_witness :
    Inv seededEmpty ∧
    (deleteTx 5 seededEmpty).transactions
      = seededEmpty.transactions.filter (fun t => t.timestamp ≠ (5 : ℚ)) ∧
    (undo (deleteTx 5 seededEmpty)).2 = true ∧
    (undo (deleteTx 5 seededEmpty)).1.transactions = seededEmpty.transactions :=
  ⟨⟨by decide, by decide, by decide, by decide⟩,
    (delete_semantics seededEmpty 5).1,
    (delete_semantics seededEmpty 5).2.2.2
      ⟨by decide, by decide, by decide, by decide⟩ (by decide)⟩

/-- `(add t st).transactions = st.transactions ++ [t]`. -/
theorem add_transactions (t : Transaction) (st : TM) :
    (add t st).transactions = st.transactions ++ [t] :=
  saveHistory_transactions _

/-- The transactions of the snapshot that are `recurring` and whose date
plus one calendar month is `<= today`: exactly those the loop clones. -/
def dueRecurring (today : Date) (st : TM) : List Transaction :=
  st.transactions.filter (fun t => t.recurring && dle (addMonth t.date) today)

/-- The clones produced for a list of due transactions, numbering the fresh
timestamps from `i`: one clone per element, dated `today`. -/
def cloneList (today : Date) (fresh : Nat → ℚ) : Nat → List Transaction → List Transaction
  | _, [] => []
  | i, t :: rest => cloneTx today (fresh i) t :: cloneList today fresh (i + 1) rest

theorem cloneList_date (today : Date) (fresh : Nat → ℚ) :
    ∀ (i : Nat) (l : List Transaction), ∀ c ∈ cloneList today fresh i l, c.date = today := by
  intro i l
  induction l generalizing i with
  | nil => intro c hc; simp [cloneList] at hc
  | cons t rest ih =>
    intro c hc
    simp only [cloneList, List.mem_cons] at hc
    rcases hc with rfl | hc
    · rfl
    · exact ih (i + 1) c hc

theorem cloneList_length (today : Date) (fresh : Nat → ℚ) :
    ∀ (i : Nat) (l : List Transaction), (cloneList today fresh i l).length = l.length := by
  intro i l
  induction l generalizing i with
  | nil => rfl
  | cons t rest ih => simp [cloneList, ih]

theorem cloneList_timestamps (today : Date) (fresh : Nat → ℚ) :
    ∀ (i : Nat) (l : List Transaction),
      (cloneList today fresh i l).map (fun c => c.timestamp)
        = (List.range' i l.length).map fresh := by
  intro i l
  induction l generalizing i with
  | nil => rfl
  | cons t rest ih => simp [cloneList, cloneTx, List.range'_succ, ih]

/-- The live list after the `forEach` loop: the original list followed by
one clone per due element of the (fixed) snapshot, so clones added during
the call are never themselves examined. -/
theorem processLoop_transactions (today : Date) (fresh : Nat → ℚ) :
    ∀ (l : List Transaction) (i : Nat) (st : TM),
      (processLoop today fresh l i st).transactions
        = st.transactions ++
            cloneList today fresh i (l.filter (fun t => dle (addMonth t.date) today)) := by
  intro l
  induction l with
  | nil => intro i st; simp [processLoop, cloneList]
  | cons t rest ih =>
    intro i st
    by_cases hd : dle (addMonth t.date) today
    · simp [processLoop, hd, ih, add_transactions, List.filter_cons, cloneList]
    · have hd' : dle (addMonth t.date) today = false := by simpa using hd
      simp [processLoop, hd', ih, List.filter_cons]

/-- Every clone carries a timestamp drawn from the fresh supply. -/
theorem cloneList_timestamp_mem (today : Date) (fresh : Nat → ℚ) :
    ∀ (i : Nat) (l : List Transaction), ∀ c ∈ cloneList today fresh i l,
      ∃ j : Nat, c.timestamp = fresh j := by
  intro i l
  induction l generalizing i with
  | nil => intro c hc; simp [cloneList] at hc
  | cons t rest ih =>
    intro c hc
    simp only [cloneList, List.mem_cons] at hc
    rcases hc with rfl | hc
    · exact ⟨i, rfl⟩
    · exact ih (i + 1) c hc

/-- C3: within one `processRecurring()` call over a fresh timestamp supply,
the resulting live list is the entry list followed by exactly one clone per
recurring transaction of the entry set whose date plus one calendar month is
`<= today`; clones are dated `today`, carry pairwise distinct fresh
timestamps, and (being absent from the iterated snapshot) are never
themselves considered in the same call. -/
theorem processRecurring_spec (today : Date) (fresh : Nat → ℚ) (st : TM)
    (hinj : Function.Injective fresh) :
    (processRecurring today fresh st).transactions
      = st.transactions ++ cloneList today fresh 0 (dueRecurring today st) ∧
    (∀ c ∈ cloneList today fresh 0 (dueRecurring today st), c.date = today) ∧
    (cloneList today fresh 0 (dueRecurring today st)).length
      = (dueRecurring today st).length ∧
    ((cloneList today fresh 0 (dueRecurring today st)).map (fun c => c.timestamp)).Nodup ∧
    ((∀ (j : Nat), ∀ t ∈ st.transactions, fresh j ≠ t.timestamp) →
      ∀ c ∈ cloneList today fresh 0 (dueRecurring today st),
        ∀ t ∈ st.transactions, c.timestamp ≠ t.timestamp) := by
  refine ⟨?_, cloneList_date today fresh 0 _, cloneList_length today fresh 0 _, ?_, ?_⟩
  · unfold processRecurring dueRecurring
    rw [processLoop_transactions]
    congr 2
    rw [List.filter_filter]
    exact List.filter_congr (fun a _ => Bool.and_comm _ _)
  · rw [cloneList_timestamps]
    exact ((List.nodup_range' _ _).map hinj)
  · intro hsep c hc t ht
    obtain ⟨j, hj⟩ := cloneList_timestamp_mem today fresh 0 _ c hc
    rw [hj]
    exact hsep j t ht

/-- A concrete recurring transaction dated 2025-09-01, used in witnesses. -/
def recurringTx : Transaction :=
  { ty := TxType.expense, amount := 20, category := "rent", date := ⟨2025, 9, 1⟩,
    descr := "monthly", recurring := true, timestamp := 2 }

/-- A ledger holding just `recurringTx`, used in witnesses. -/
def recSt : TM := ⟨[recurringTx], [[recurringTx]], 0⟩

/-- The concrete date 2025-10-01, used in witnesses. -/
def oct1 : Date := ⟨2025, 10, 1⟩

/-- C3, witness: one recurring transaction dated a month before today, a
fresh supply `n ↦ n`. -/
theorem processRecurring_spec_witness :
    (processRecurring oct1 (fun n => (n : ℚ)) recSt).transactions
      = recSt.transactions
          ++ cloneList oct1 (fun n => (n : ℚ)) 0 (dueRecurring oct1 recSt) ∧
    (∀ c ∈ cloneList oct1 (fun n => (n : ℚ)) 0 (dueRecurring oct1 recSt), c.date = oct1) ∧
    (cloneList oct1 (fun n => (n : ℚ)) 0 (dueRecurring oct1 recSt)).length
      = (dueRecurring oct1 recSt).length ∧
    ((cloneList oct1 (fun n => (n : ℚ)) 0 (dueRecurring oct1 recSt)).map
      (fun c => c.timestamp)).Nodup ∧
    ((∀ (j : Nat), ∀ t ∈ recSt.transactions, (j : ℚ) ≠ t.timestamp) →
      ∀ c ∈ cloneList oct1 (fun n => (n : ℚ)) 0 (dueRecurring oct1 recSt),
        ∀ t ∈ recSt.transactions, c.timestamp ≠ t.timestamp) :=
  processRecurring_spec oct1 (fun n => (n : ℚ)) recSt Nat.cast_injective

/-- C5: the 7-day spending trend always has exactly 7 entries; the entry at
position `k` carries the date `today − (6 − k)` days (so the dates run
consecutively from `today − 6` up to `today`, oldest first) and the sum of
the amounts of the expense transactions dated exactly that day; a day with
no such expenses yields amount 0. -/
theorem getSpendingTrend_spec (today : Date) (st : TM) :
    (getSpendingTrend today st).length = 7 ∧
    (∀ k : ℕ, k < 7 →
      (getSpendingTrend today st)[k]? =
        some { date := addDays today ((k : ℤ) - 6),
               amount := sumAmounts (st.transactions.filter
                 (fun t => decide (t.ty = TxType.expense
                   ∧ t.date = addDays today ((k : ℤ) - 6)))) }) ∧
    (∀ k : ℕ, k < 7 →
      (∀ t ∈ st.transactions, t.ty = TxType.expense →
        t.date ≠ addDays today ((k : ℤ) - 6)) →
      ∃ e : TrendEntry, (getSpendingTrend today st)[k]? = some e ∧ e.amount = 0) := by
  refine ⟨by simp only [getSpendingTrend, List.length_map, List.length_range], ?_, ?_⟩
  · intro k hk
    simp only [getSpendingTrend, List.getElem?_map, List.getElem?_range hk]
    rfl
  · intro k hk hnone
    refine ⟨_, by
      simp only [getSpendingTrend, List.getElem?_map, List.getElem?_range hk]
      rfl, ?_⟩
    have hfil : st.transactions.filter
        (fun t => decide (t.ty = TxType.expense)
          && decide (t.date = addDays today ((k : ℤ) - 6))) = [] := by
      rw [List.filter_eq_nil_iff]
      intro t ht
      simp only [Bool.and_eq_true, decide_eq_true_eq, not_and]
      intro hty
      exact hnone t ht hty
    simp only [sumAmounts, Bool.decide_and, hfil, List.foldl_nil]

/-- C5, witness: the trend over the one-transaction ledger, evaluated at
position 3. -/
theorem getSpendingTrend_spec_witness :
    (getSpendingTrend oct1 recSt).length = 7 ∧
    (3 : ℕ) < 7 ∧
    (getSpendingTrend oct1 recSt)[3]? =
      some { date := addDays oct1 (((3 : ℕ) : ℤ) - 6),
             amount := sumAmounts (recSt.transactions.filter
               (fun t => decide (t.ty = TxType.expense
                 ∧ t.date = addDays oct1 (((3 : ℕ) : ℤ) - 6)))) } :=
  ⟨(getSpendingTrend_spec oct1 recSt).1, by decide,
    (getSpendingTrend_spec oct1 recSt).2.1 3 (by decide)⟩

end TransactionManager

namespace BudgetManager

/-- The budget registry state: the plain `budgets` object, a partial map
from category to monthly limit. -/
def Budgets := String → Option ℚ

/-- The empty registry (`this.budgets = {}`). -/
def emptyBudgets : Budgets := fun _ => none

/-- `set(category, limit)`: upsert into the map. -/
def set (category : String) (limit : ℚ) (b : Budgets) : Budgets :=
  fun c => if c = category then some limit else b c

/-- `get(category)`: `this.budgets[category] || null` — the stored limit if
present and truthy; an absent key or a stored falsy limit (0) gives null. -/
def get (category : String) (b : Budgets) : Option ℚ :=
  match b category with
  | some v => if v = 0 then none else some v
  | none => none

/-- `getAll()`: a copy of the whole map (spread copy in the source). -/
def getAll (b : Budgets) : Budgets := b

/-- `delete(category)`: remove the key. -/
def deleteB (category : String) (b : Budgets) : Budgets :=
  fun c => if c = category then none else b c

/-- `clear()`: reset to the empty map. -/
def clear (_ : Budgets) : Budgets := emptyBudgets

/-- C10: `get` returns null whenever the stored limit is falsy, not only
when the key is absent: after `set c 0`, `get c` is null although `getAll`
still maps `c` to the limit 0 (and `get` on an absent key is also null) —
so a null `get` does not imply that no budget entry exists for `c`. -/
theorem get_null_on_falsy_limit (b : Budgets) (c : String) :
    get c (set c 0 b) = none ∧
    getAll (set c 0 b) c = some 0 ∧
    get c emptyBudgets = none := by
  refine ⟨?_, ?_, rfl⟩
  · simp [get, set]
  · simp [getAll, set]

end BudgetManager

namespace FinanceApp

/-- Severity of a budget alert (`type` field of the pushed alert object):
`danger` for an exceeded budget, `warning` for one at 80% or more. -/
inductive Severity where
  | danger
  | warning
deriving DecidableEq, Repr

/-- A budget alert; the message string is presentation-only and omitted. -/
structure Alert where
  category : String
  severity : Severity
deriving DecidableEq, Repr

/-- The per-entry alert logic of `renderBudgets()`:
`spent = spending[category] || 0`, `percentage = spent / limit * 100`;
`percentage >= 100` pushes a danger alert, otherwise `percentage >= 80`
pushes a warning alert, otherwise none. -/
def alertFor (spending : String → Option ℚ) (entry : String × ℚ) : Option Alert :=
  if (spending entry.1).getD 0 / entry.2 * 100 ≥ 100 then
    some ⟨entry.1, Severity.danger⟩
  else if (spending entry.1).getD 0 / entry.2 * 100 ≥ 80 then
    some ⟨entry.1, Severity.warning⟩
  else none

/-- The alert list accumulated over `Object.entries(budgets)`. -/
def renderBudgetAlerts (budgets : List (String × ℚ))
    (spending : String → Option ℚ) : List Alert :=
  budgets.filterMap (alertFor spending)

/-- C4: for a budget entry with positive limit, a danger (exceeded) alert
is produced iff the spend percentage is ≥ 100, a warning alert iff it is in
[80, 100), and no alert iff it is < 80; concretely for budget
`{food: 100}`: spend 79 → no alert, 80 → warning, 100 → exceeded, 0 or
absent → no alert. -/
theorem budget_alert_thresholds (spending : String → Option ℚ) (c : String)
    (limit : ℚ) (hpos : 0 < limit) :
    (alertFor spending (c, limit) = some ⟨c, Severity.danger⟩ ↔
      (spending c).getD 0 / limit * 100 ≥ 100) ∧
    (alertFor spending (c, limit) = some ⟨c, Severity.warning⟩ ↔
      (80 ≤ (spending c).getD 0 / limit * 100 ∧ (spending c).getD 0 / limit * 100 < 100)) ∧
    (alertFor spending (c, limit) = none ↔ (spending c).getD 0 / limit * 100 < 80) ∧
    ((spending c).getD 0 / limit * 100 ≥ 100 ↔ limit ≤ (spending c).getD 0) ∧
    renderBudgetAlerts [("food", 100)] (fun s => if s = "food" then some 79 else none)
      = [] ∧
    renderBudgetAlerts [("food", 100)] (fun s => if s = "food" then some 80 else none)
      = [⟨"food", Severity.warning⟩] ∧
    renderBudgetAlerts [("food", 100)] (fun s => if s = "food" then some 100 else none)
      = [⟨"food", Severity.danger⟩] ∧
    renderBudgetAlerts [("food", 100)] (fun s => if s = "food" then some 0 else none)
      = [] ∧
    renderBudgetAlerts [("food", 100)] (fun _ => none) = [] := by
  refine ⟨?_, ?_, ?_, ?_,
    by simp only [renderBudgetAlerts, List.filterMap_cons, List.filterMap_nil, alertFor]
       norm_num,
    by simp only [renderBudgetAlerts, List.filterMap_cons, List.filterMap_nil, alertFor]
       norm_num,
    by simp only [renderBudgetAlerts, List.filterMap_cons, List.filterMap_nil, alertFor]
       norm_num,
    by simp only [renderBudgetAlerts, List.filterMap_cons, List.filterMap_nil, alertFor]
       norm_num,
    by simp only [renderBudgetAlerts, List.filterMap_cons, List.filterMap_nil, alertFor]
       norm_num⟩
  · unfold alertFor
    split_ifs with h1 h2 <;> simp_all
  · unfold alertFor
    split_ifs with h1 h2 <;> simp_all
  · unfold alertFor
    split_ifs with h1 h2 <;> simp_all
    all_goals linarith
  · rw [ge_iff_le, div_mul_eq_mul_div, le_div_iff₀ hpos]
    constructor <;> intro h <;> linarith

/-- C4, witness: the thresholds theorem at category `food`, limit 100, a
spend of 80. -/
theorem budget_alert_thresholds_witness :
    (0 : ℚ) < 100 ∧
    (alertFor (fun s => if s = "food" then some 80 else none) ("food", 100)
        = some ⟨"food", Severity.warning⟩ ↔
      (80 ≤ ((fun s => if s = "food" then some (80 : ℚ) else none) "food").getD 0 / 100 * 100
        ∧ ((fun s => if s = "food" then some (80 : ℚ) else none) "food").getD 0 / 100 * 100
            < 100)) :=
  ⟨by norm_num,
    (budget_alert_thresholds (fun s => if s = "food" then some 80 else none)
      "food" 100 (by norm_num)).2.1⟩

end FinanceApp

namespace FinancialHealthScore

/-- Mean of a list of amounts (`reduce((sum, val) => sum + val, 0) / length`). -/
def meanOf (l : List ℚ) : ℚ := l.foldl (fun s v => s + v) 0 / l.length

/-- Population variance (`reduce((sum, val) => sum + (val - mean)^2, 0) / length`). -/
def varOf (l : List ℚ) : ℚ :=
  (l.map (fun v => (v - meanOf l) ^ 2)).foldl (fun s v => s + v) 0 / l.length

/-- The qualifying data points of `calculateSpendingConsistency`: amounts of
the expense transactions dated within the trailing 30 days
(`new Date(t.date) >= thirtyDaysAgo`); `now` is the current instant in days
since the epoch, so the cutoff is `now - 30`. -/
def qualifying (now : ℚ) (txs : List Transaction) : List ℚ :=
  (txs.filter (fun t =>
    decide (t.ty = TxType.expense ∧ now - 30 ≤ ((daysFromCivil t.date : ℤ) : ℚ)))).map
    (fun t => t.amount)

/-- The tier table applied to `cv = sqrt(variance)/mean*100`.  For
`mean > 0` each source comparison `cv <= T` is equivalent to
`variance * 10000 <= T^2 * mean^2` (see `cv_tier_le_iff`), which is the
executable form used; for `mean <= 0` the source sets `cv = 100`, landing in
the `cv <= 100` tier (score 3). -/
def cvTier (mean variance : ℚ) : ℕ :=
  if 0 < mean then
    if variance * 10000 ≤ 400 * mean ^ 2 then 15
    else if variance * 10000 ≤ 1600 * mean ^ 2 then 12
    else if variance * 10000 ≤ 3600 * mean ^ 2 then 9
    else if variance * 10000 ≤ 6400 * mean ^ 2 then 6
    else if variance * 10000 ≤ 10000 * mean ^ 2 then 3
    else 0
  else 3

/-- `calculateSpendingConsistency(transactions)`: 15 when the whole list has
fewer than 7 transactions; 15 when fewer than 5 qualifying points; otherwise
the coefficient-of-variation tier. -/
def calculateSpendingConsistency (now : ℚ) (txs : List Transaction) : ℕ :=
  if txs.length < 7 then 15
  else if (qualifying now txs).length < 5 then 15
  else cvTier (meanOf (qualifying now txs)) (varOf (qualifying now txs))

/-- The squared comparison of `cvTier` agrees with the source's
`sqrt(variance)/mean*100 <= T` over the reals. -/
theorem cv_tier_le_iff (v m T : ℝ) (hm : 0 < m) (hT : 0 ≤ T) :
    Real.sqrt v / m * 100 ≤ T ↔ v * 10000 ≤ T ^ 2 * m ^ 2 := by
  rw [div_mul_eq_mul_div, div_le_iff₀ hm,
    show Real.sqrt v * 100 ≤ T * m ↔ Real.sqrt v ≤ T * m / 100 from
      (le_div_iff₀ (by norm_num : (0 : ℝ) < 100)).symm,
    Real.sqrt_le_left (by positivity)]
  constructor <;> intro h <;> nlinarith

/-- Five expense transactions dated 1970-01-01 with amounts 1,1,1,1,100:
five qualifying points (at `now = 0` days) but fewer than 7 transactions in
total, and a coefficient of variation far above 100. -/
def cexTxs : List Transaction :=
  [⟨TxType.expense, 1, "food", ⟨1970, 1, 1⟩, "", false, 1⟩,
   ⟨TxType.expense, 1, "food", ⟨1970, 1, 1⟩, "", false, 2⟩,
   ⟨TxType.expense, 1, "food", ⟨1970, 1, 1⟩, "", false, 3⟩,
   ⟨TxType.expense, 1, "food", ⟨1970, 1, 1⟩, "", false, 4⟩,
   ⟨TxType.expense, 100, "food", ⟨1970, 1, 1⟩, "", false, 5⟩]

/-- C7, counterexample: a list with exactly 5 qualifying expense points —
the sub-score of the claim would be the CV tier (here 0, since
CV ≈ 190 > 100) — yet the code returns the insufficient-data default 15,
because of its additional `transactions.length < 7` guard on the whole
list. -/
theorem spendingConsistency_cex :
    (qualifying 0 cexTxs).length = 5 ∧
    calculateSpendingConsistency 0 cexTxs = 15 ∧
    cvTier (meanOf (qualifying 0 cexTxs)) (varOf (qualifying 0 cexTxs)) = 0 := by
  have hd : daysFromCivil ⟨1970, 1, 1⟩ = 0 := by decide
  have hq : qualifying 0 cexTxs = [1, 1, 1, 1, 100] := by
    norm_num [qualifying, cexTxs, List.filter_cons, List.filter_nil, hd]
  have hm : meanOf [(1 : ℚ), 1, 1, 1, 100] = 104 / 5 := by
    norm_num [meanOf]
  have hv : varOf [(1 : ℚ), 1, 1, 1, 100] = 39204 / 25 := by
    norm_num [varOf, meanOf]
  refine ⟨by rw [hq]; rfl, by decide, ?_⟩
  rw [hq, hm, hv]
  norm_num [cvTier]

/-- C7, amended: the spending-consistency sub-score equals the CV tier of
the qualifying expense amounts only when the whole transaction list also has
at least 7 entries; with fewer than 5 qualifying points — or with at least 5
qualifying points but fewer than 7 transactions in total — it is the
insufficient-data default 15. -/
theorem spendingConsistency_amended (now : ℚ) (txs : List Transaction) :
    (txs.length < 7 → calculateSpendingConsistency now txs = 15) ∧
    (7 ≤ txs.length → (qualifying now txs).length < 5 →
      calculateSpendingConsistency now txs = 15) ∧
    (7 ≤ txs.length → 5 ≤ (qualifying now txs).length →
      calculateSpendingConsistency now txs
        = cvTier (meanOf (qualifying now txs)) (varOf (qualifying now txs))) := by
  unfold calculateSpendingConsistency
  refine ⟨fun h => by rw [if_pos h], fun h7 h5 => ?_, fun h7 h5 => ?_⟩
  · rw [if_neg (by omega), if_pos h5]
  · rw [if_neg (by omega), if_neg (by omega)]

/-- Seven equal expense transactions dated 1970-01-01: 7 total, 7
qualifying, CV = 0. -/
def consTxs : List Transaction :=
  [⟨TxType.expense, 10, "food", ⟨1970, 1, 1⟩, "", false, 1⟩,
   ⟨TxType.expense, 10, "food", ⟨1970, 1, 1⟩, "", false, 2⟩,
   ⟨TxType.expense, 10, "food", ⟨1970, 1, 1⟩, "", false, 3⟩,
   ⟨TxType.expense, 10, "food", ⟨1970, 1, 1⟩, "", false, 4⟩,
   ⟨TxType.expense, 10, "food", ⟨1970, 1, 1⟩, "", false, 5⟩,
   ⟨TxType.expense, 10, "food", ⟨1970, 1, 1⟩, "", false, 6⟩,
   ⟨TxType.expense, 10, "food", ⟨1970, 1, 1⟩, "", false, 7⟩]

/-- C7, witness for the amended theorem: 7 equal expenses, all qualifying. -/
theorem spendingConsistency_amended_witness :
    7 ≤ consTxs.length ∧ 5 ≤ (qualifying 0 consTxs).length ∧
    calculateSpendingConsistency 0 consTxs
      = cvTier (meanOf (qualifying 0 consTxs)) (varOf (qualifying 0 consTxs)) := by
  have hd : daysFromCivil ⟨1970, 1, 1⟩ = 0 := by decide
  have hq : qualifying 0 consTxs = [10, 10, 10, 10, 10, 10, 10] := by
    norm_num [qualifying, consTxs, List.filter_cons, List.filter_nil, hd]
  refine ⟨by decide, by rw [hq]; norm_num,
    (spendingConsistency_amended 0 consTxs).2.2 (by decide) (by rw [hq]; norm_num)⟩

end FinancialHealthScore

namespace FinanceApp

/-- A raw transaction record of an import payload, with JavaScript-valued
fields: `none` models an absent/undefined field, `some ""` an empty string;
a zero amount is falsy. -/
structure RawTx where
  ty : Option String
  amount : Option ℚ
  category : Option String
  date : Option String
  recurring : Bool
  timestamp : Option ℚ
deriving DecidableEq, Repr

/-- A parsed import payload (the JSON export shape): optional transaction
array and optional budgets map. -/
structure ImportData where
  transactions : Option (List RawTx)
  budgets : Option (List (String × ℚ))
deriving DecidableEq, Repr

/-- JavaScript truthiness of an optional string field. -/
def truthyS : Option String → Bool
  | none => false
  | some s => s ≠ ""

/-- JavaScript truthiness of an optional numeric field. -/
def truthyN : Option ℚ → Bool
  | none => false
  | some q => q ≠ 0

/-- The per-transaction check of `validateImportData`: all of `type`,
`amount`, `category`, `date` truthy and `type` in `['income', 'expense']`. -/
def validTx (t : RawTx) : Bool :=
  truthyS t.ty && truthyN t.amount && truthyS t.category && truthyS t.date &&
    (t.ty == some "income" || t.ty == some "expense")

/-- `validateImportData(data)`: in the typed model the structural
array/object checks hold by construction, leaving the per-transaction loop;
an absent `transactions` key validates vacuously. -/
def validateImportData (d : ImportData) : Bool :=
  match d.transactions with
  | some l => l.all validTx
  | none => true

/-- The application state touched by import: the ledger and the budget
registry. -/
structure AppState where
  tm : TransactionManager.TM
  budgets : BudgetManager.Budgets

/-- `clearAllData()`: delete every live transaction by its timestamp (each
deletion records history), then delete every budget key — on a registry
whose keys are exactly its entries this empties the map, modelled as
`clear`. -/
def clearAllData (st : AppState) : AppState :=
  { tm := (TransactionManager.getAll st.tm).foldl
      (fun s t => TransactionManager.deleteTx t.timestamp s) st.tm,
    budgets := BudgetManager.clear st.budgets }

/-- `processImportData(data, mergeMode)`: clear first in replace mode, then
`add` every imported transaction and `set` every imported budget.  `conv`
models the duck-typed spread of a raw record into the ledger (including the
`timestamp || Date.now() + Math.random()` defaulting). -/
def processImportData (conv : RawTx → Transaction) (d : ImportData)
    (mergeMode : Bool) (st : AppState) : AppState :=
  let st1 := if mergeMode then st else clearAllData st
  let st2 := match d.transactions with
    | some l => { st1 with
        tm := l.foldl (fun s t => TransactionManager.add (conv t) s) st1.tm }
    | none => st1
  match d.budgets with
  | some bs => { st2 with
      budgets := bs.foldl (fun b p => BudgetManager.set p.1 p.2 b) st2.budgets }
  | none => st2

/-- `handleImportData()`: validate the whole payload first; on failure
return (toast only) without touching any state, in either mode. -/
def handleImportData (conv : RawTx → Transaction) (d : ImportData)
    (mergeMode : Bool) (st : AppState) : AppState :=
  if validateImportData d then processImportData conv d mergeMode st else st

/-- C6: an import payload containing at least one transaction lacking a
truthy `type` in `{income, expense}` or a truthy `amount`, `category` or
`date` fails validation, and the import then mutates no state at all — the
ledger and the budgets map are returned untouched, in merge mode and in
replace mode alike. -/
theorem import_all_or_nothing (conv : RawTx → Transaction) (d : ImportData)
    (mergeMode : Bool) (st : AppState) (l : List RawTx)
    (hl : d.transactions = some l) (t : RawTx) (ht : t ∈ l)
    (hbad : validTx t = false) :
    handleImportData conv d mergeMode st = st ∧
    (handleImportData conv d mergeMode st).tm.transactions = st.tm.transactions ∧
    (handleImportData conv d mergeMode st).budgets = st.budgets := by
  have hval : validateImportData d = false := by
    unfold validateImportData
    rw [hl]
    simp only [List.all_eq_false]
    exact ⟨t, ht, by simp [hbad]⟩
  unfold handleImportData
  rw [hval]
  simp

/-- A malformed raw transaction: its `amount` field is absent. -/
def badRaw : RawTx :=
  { ty := some "income", amount := none, category := some "salary",
    date := some "2025-01-01", recurring := false, timestamp := none }

/-- A valid raw transaction accompanying the malformed one. -/
def goodRaw : RawTx :=
  { ty := some "expense", amount := some 5, category := some "food",
    date := some "2025-01-02", recurring := false, timestamp := some 7 }

/-- The initial application state used in the C6 witness. -/
def st0 : AppState :=
  { tm := TransactionManager.seededEmpty, budgets := BudgetManager.emptyBudgets }

/-- C6, witness: a payload with one valid and one malformed transaction
leaves a concrete state untouched in replace mode. -/
theorem import_all_or_nothing_witness :
    (⟨some [goodRaw, badRaw], none⟩ : ImportData).transactions
      = some [goodRaw, badRaw] ∧
    badRaw ∈ [goodRaw, badRaw] ∧
    validTx badRaw = false ∧
    handleImportData (fun _ => TransactionManager.sampleTx)
      ⟨some [goodRaw, badRaw], none⟩ false st0 = st0 :=
  ⟨rfl, by decide, by decide,
    (import_all_or_nothing (fun _ => TransactionManager.sampleTx)
      ⟨some [goodRaw, badRaw], none⟩ false st0 [goodRaw, badRaw] rfl badRaw
      (by decide) (by decide)).1⟩

end FinanceApp

namespace ExportManager

/-- The projection of a transaction that `toCSV` serialises: the six cells
`Date, Type, Category, Amount, Description, Recurring`.  Text fields are
modelled as character lists; the amount is a rational, rendered by
`renderAmount` as its decimal expansion (the JavaScript template
interpolation of the number).  The `description` cell already carries the
`t.description || ''` defaulting of the source. -/
structure CsvTx where
  date : List Char
  ty : List Char
  category : List Char
  amount : ℚ
  descr : List Char
  recurring : Bool
deriving DecidableEq, Repr

/-- The three characters `","` that stand between two consecutive
quote-wrapped cells of a row. -/
def sepChars : List Char := ['"', ',', '"']

/-- The decimal digit character of `d` (defined for `d < 10`). -/
def digitChar (d : ℕ) : Char :=
  match d with
  | 0 => '0' | 1 => '1' | 2 => '2' | 3 => '3' | 4 => '4'
  | 5 => '5' | 6 => '6' | 7 => '7' | 8 => '8' | _ => '9'

/-- Digit characters of `n`, most significant first (`fuel` bounds the
recursion; any `fuel ≥ n` gives the full rendering). -/
def natCharsAux : ℕ → ℕ → List Char
  | _, 0 => []
  | 0, _ => []
  | fuel + 1, n + 1 =>
    natCharsAux fuel ((n + 1) / 10) ++ [digitChar ((n + 1) % 10)]

/-- The decimal rendering of a natural number, as JavaScript prints an
integral number into a template string. -/
def natChars (n : ℕ) : List Char :=
  if n = 0 then ['0'] else natCharsAux n n

/-- A nonnegative rational with a terminating decimal expansion — the
values a JavaScript float can hold.  The denominator of such a number has
only the prime factors 2 and 5, which is equivalent to `den ∣ 10 ^ den`
(each exponent in `den = 2^a * 5^b` is below `den` itself). -/
def IsDecimal (q : ℚ) : Prop := 0 ≤ q ∧ q.den ∣ 10 ^ q.den

/-- Search upward from `j0` for an exponent `j` with `den ∣ 10 ^ j`: the
number of decimal places needed for an exact rendering. -/
def decScaleAux (den : ℕ) : ℕ → ℕ → Option ℕ
  | 0, _ => none
  | fuel + 1, j => if 10 ^ j % den = 0 then some j else decScaleAux den fuel (j + 1)

/-- The digit string of `m` left-padded with zeros to `k` places: the
fraction part of a decimal rendering. -/
def padDigits (k m : ℕ) : List Char :=
  List.replicate (k - (natChars m).length) '0' ++ natChars m

/-- The decimal rendering of a nonnegative rational, as JavaScript prints a
float: scale by the least power of ten that clears the denominator (so the
last fraction digit is nonzero), then print integer part, point, and
zero-padded fraction part — or just the integer part when no fraction is
needed.  On a rational with no terminating expansion (no JavaScript float
is one) the fallback renders 0. -/
def renderAmount (q : ℚ) : List Char :=
  match decScaleAux q.den (q.den + 1) 0 with
  | some k =>
    let scaled := q.num.toNat * 10 ^ k / q.den
    if k = 0 then natChars scaled
    else natChars (scaled / 10 ^ k) ++ '.' :: padDigits k (scaled % 10 ^ k)
  | none => natChars 0

/-- `Yes` / `No`, the rendering of the `recurring` flag. -/
def recChars (b : Bool) : List Char :=
  if b then ['Y', 'e', 's'] else ['N', 'o']

/-- The cells of one row, each wrapped in double quotes, joined by commas:
everything of the row between its opening and closing quote. -/
def rowBody (t : CsvTx) : List Char :=
  t.date ++ sepChars ++ t.ty ++ sepChars ++ t.category ++ sepChars
    ++ renderAmount t.amount ++ sepChars ++ t.descr ++ sepChars ++ recChars t.recurring

/-- One CSV row of `toCSV`:
`"date","type","category","amount","description","Yes|No"`. -/
def serializeRow (t : CsvTx) : List Char := '"' :: (rowBody t ++ ['"'])

/-- The header row `Date,Type,Category,Amount,Description,Recurring`. -/
def headerRow : List Char := "Date,Type,Category,Amount,Description,Recurring".toList

/-- `toCSV` as its list of lines (the source joins them with `'\n'`). -/
def toCSVLines (txs : List CsvTx) : List (List Char) :=
  headerRow :: txs.map serializeRow

/-- The full emitted CSV text. -/
def csvChars (txs : List CsvTx) : List Char :=
  List.intercalate ['\n'] (toCSVLines txs)

/-- Modelled from the spec: split a row body at every occurrence of the
three-character cell separator `","`.  The repository has no CSV importer —
the spec's round-trip property speaks of "re-parsing those rows" — so the
evident inverse of the emitted format is used. -/
def splitSep : List Char → List (List Char)
  | [] => [[]]
  | [c] => [[c]]
  | [c, d] => [[c, d]]
  | c :: d :: e :: rest =>
    if c = '"' ∧ d = ',' ∧ e = '"' then
      [] :: splitSep rest
    else
      match splitSep (d :: e :: rest) with
      | [] => [[c]]
      | f :: fs => (c :: f) :: fs

/-- Modelled from the spec: parse a digit string back to the number. -/
def parseNatChars (cs : List Char) : Option ℕ :=
  if cs ≠ [] ∧ cs.all Char.isDigit then
    some (cs.foldl (fun a c => a * 10 + (c.toNat - 48)) 0)
  else none

/-- Modelled from the spec: parse a decimal amount cell — either a plain
digit string, or integer digits, a point and fraction digits. -/
def parseAmount (cs : List Char) : Option ℚ :=
  match cs.dropWhile (fun c => c != '.') with
  | [] => (parseNatChars (cs.takeWhile (fun c => c != '.'))).map (fun n => (n : ℚ))
  | c :: fp =>
    if c = '.' ∧ '.' ∉ fp then
      match parseNatChars (cs.takeWhile (fun c => c != '.')), parseNatChars fp with
      | some a, some b => some ((a : ℚ) + (b : ℚ) / 10 ^ fp.length)
      | _, _ => none
    else none

/-- Modelled from the spec: decode the `Yes`/`No` cell to the boolean. -/
def decodeYesNo (cs : List Char) : Option Bool :=
  if cs = ['Y', 'e', 's'] then some true
  else if cs = ['N', 'o'] then some false
  else none

/-- Modelled from the spec: re-parse one emitted row.  The row must start
and end with a double quote; the body between them must split into exactly
six cells, whose amount and recurring cells decode.  The result is the
reconstructed `{date, type, category, amount, description, recurring}`
tuple. -/
def parseRow (cs : List Char) : Option CsvTx :=
  match cs with
  | '"' :: rest =>
    if rest.getLast? = some '"' then
      match splitSep rest.dropLast with
      | [d, ty, cat, amt, desc, rc] =>
        match parseAmount amt, decodeYesNo rc with
        | some a, some b =>
          some { date := d, ty := ty, category := cat, amount := a,
                 descr := desc, recurring := b }
        | _, _ => none
      | _ => none
    else none
  | _ => none

/-- A cell is safely parseable when the separator `","` occurs nowhere in
it followed by its closing quote — i.e. the cell neither contains `","` as
a substring nor ends in `",`. -/
abbrev goodField (xs : List Char) : Prop := ¬ sepChars <:+: (xs ++ ['"'])

/-- One-step unfolding of `splitSep` on a list of length at least three. -/
theorem splitSep_eq_cons (c d e : Char) (rest : List Char) :
    splitSep (c :: d :: e :: rest)
      = if c = '"' ∧ d = ',' ∧ e = '"' then [] :: splitSep rest
        else match splitSep (d :: e :: rest) with
          | [] => [[c]]
          | f :: fs => (c :: f) :: fs := rfl

/-- Splitting a good cell followed by a separator peels off exactly that
cell. -/
theorem splitSep_cell (rest : List Char) : ∀ xs : List Char,
    ¬ sepChars <:+: (xs ++ ['"']) →
    splitSep (xs ++ (sepChars ++ rest)) = xs :: splitSep rest := by
  intro xs
  induction xs with
  | nil =>
    intro _
    show splitSep ('"' :: ',' :: '"' :: rest) = [] :: splitSep rest
    simp [splitSep]
  | cons c tl ih =>
    intro h
    have htl : ¬ sepChars <:+: (tl ++ ['"']) := fun hin => h (List.infix_cons hin)
    rcases tl with - | ⟨d, tl2⟩
    · show splitSep (c :: '"' :: ',' :: ('"' :: rest)) = [c] :: splitSep rest
      have e1 : splitSep ('"' :: ',' :: ('"' :: rest)) = [] :: splitSep rest := ih htl
      rw [splitSep_eq_cons, if_neg (by simp), e1]
    · rcases tl2 with - | ⟨e, tl3⟩
      · show splitSep (c :: d :: '"' :: (',' :: '"' :: rest)) = [c, d] :: splitSep rest
        have e1 : splitSep (d :: '"' :: (',' :: '"' :: rest)) = [d] :: splitSep rest := ih htl
        rw [splitSep_eq_cons, if_neg ?cnd1, e1]
        case cnd1 =>
          rintro ⟨hc, hd, -⟩
          apply h
          rw [hc, hd]
          exact List.infix_rfl
      · show splitSep (c :: d :: e :: (tl3 ++ (sepChars ++ rest)))
            = (c :: d :: e :: tl3) :: splitSep rest
        have e1 : splitSep (d :: e :: (tl3 ++ (sepChars ++ rest)))
            = (d :: e :: tl3) :: splitSep rest := ih htl
        rw [splitSep_eq_cons, if_neg ?cnd2, e1]
        case cnd2 =>
          rintro ⟨hc, hd, he⟩
          apply h
          rw [hc, hd, he]
          exact ⟨[], tl3 ++ ['"'], by simp [sepChars]⟩

/-- Splitting a final cell containing no separator yields just that cell. -/
theorem splitSep_single : ∀ xs : List Char,
    ¬ sepChars <:+: xs → splitSep xs = [xs] := by
  intro xs
  induction xs with
  | nil => intro _; rfl
  | cons c tl ih =>
    intro h
    have htl : ¬ sepChars <:+: tl := fun hin => h (List.infix_cons hin)
    rcases tl with - | ⟨d, tl2⟩
    · rfl
    · rcases tl2 with - | ⟨e, tl3⟩
      · rfl
      · rw [splitSep_eq_cons, if_neg ?cnd3, ih htl]
        case cnd3 =>
          rintro ⟨hc, hd, he⟩
          apply h
          rw [hc, hd, he]
          exact ⟨[], tl3, by simp [sepChars]⟩

/-- A cell containing no comma is good: the separator contains a comma, so
it cannot occur inside the cell (nor overlapping its closing quote). -/
theorem goodField_of_no_comma {xs : List Char} (h : ',' ∉ xs) : goodField xs := by
  intro hin
  have hmem : ',' ∈ xs ++ ['"'] := hin.subset (by decide)
  simp only [List.mem_append, List.mem_singleton] at hmem
  rcases hmem with hm | hm
  · exact h hm
  · exact absurd hm (by decide)

/-- A comma-free cell also contains no separator outright. -/
theorem not_infix_of_no_comma {xs : List Char} (h : ',' ∉ xs) :
    ¬ sepChars <:+: xs := by
  intro hin
  exact h (hin.subset (by decide))

/-- `digitChar` always produces a decimal digit character. -/
theorem digitChar_isDigit (d : ℕ) : (digitChar d).isDigit = true := by
  unfold digitChar
  split <;> decide

/-- `digitChar` never produces a comma. -/
theorem digitChar_ne_comma (d : ℕ) : digitChar d ≠ ',' := by
  unfold digitChar
  split <;> decide

/-- For an actual digit, `digitChar` inverts through the character code. -/
theorem digitChar_toNat (d : ℕ) (hd : d < 10) : (digitChar d).toNat - 48 = d := by
  interval_cases d <;> rfl

/-- Every character the digit renderer emits is a decimal digit. -/
theorem natCharsAux_isDigit : ∀ (fuel n : ℕ), ∀ c ∈ natCharsAux fuel n,
    c.isDigit = true := by
  intro fuel
  induction fuel with
  | zero =>
    intro n c hc
    rcases n with - | n <;> simp [natCharsAux] at hc
  | succ fuel ih =>
    intro n c hc
    rcases n with - | n
    · simp [natCharsAux] at hc
    · simp only [natCharsAux, List.mem_append, List.mem_singleton] at hc
      rcases hc with hc | rfl
      · exact ih _ c hc
      · exact digitChar_isDigit _

/-- The amount cell contains no comma. -/
theorem natChars_no_comma (n : ℕ) : ',' ∉ natChars n := by
  unfold natChars
  split
  · decide
  · intro hmem
    have := natCharsAux_isDigit n n ',' hmem
    exact absurd this (by decide)

/-- The recurring cell contains no comma. -/
theorem recChars_no_comma (b : Bool) : ',' ∉ recChars b := by
  cases b <;> decide

/-- Reading the digit rendering back with the base-10 fold recovers the
number. -/
theorem natCharsAux_foldl : ∀ (fuel n a : ℕ), n ≤ fuel →
    (natCharsAux fuel n).foldl (fun acc c => acc * 10 + (c.toNat - 48)) a
      = a * 10 ^ (natCharsAux fuel n).length + n := by
  intro fuel
  induction fuel with
  | zero =>
    intro n a hn
    obtain rfl : n = 0 := by omega
    simp [natCharsAux]
  | succ fuel ih =>
    intro n a hn
    rcases n with - | n
    · simp [natCharsAux]
    · have hdiv : (n + 1) / 10 ≤ fuel := by
        have := Nat.div_lt_self (Nat.succ_pos n) (by norm_num : 1 < 10)
        omega
      simp only [natCharsAux, List.foldl_append, List.foldl_cons, List.foldl_nil,
        List.length_append, List.length_cons, List.length_nil]
      rw [ih _ a hdiv, digitChar_toNat _ (Nat.mod_lt _ (by norm_num)), pow_succ]
      have := Nat.div_add_mod (n + 1) 10
      ring_nf
      omega

/-- The digit rendering of a positive number is nonempty. -/
theorem natCharsAux_ne_nil (fuel n : ℕ) (h1 : n ≠ 0) (h2 : fuel ≠ 0) :
    natCharsAux fuel n ≠ [] := by
  rcases fuel with - | fuel
  · exact absurd rfl h2
  · rcases n with - | n
    · exact absurd rfl h1
    · simp [natCharsAux]

/-- The amount rendering and parsing round-trip. -/
theorem parseNatChars_natChars (n : ℕ) : parseNatChars (natChars n) = some n := by
  by_cases h0 : n = 0
  · subst h0; decide
  · unfold natChars
    rw [if_neg h0]
    unfold parseNatChars
    rw [if_pos ?cond]
    case cond =>
      refine ⟨natCharsAux_ne_nil n n h0 h0, ?_⟩
      rw [List.all_eq_true]
      exact fun c hc => natCharsAux_isDigit n n c hc
    rw [natCharsAux_foldl n n 0 le_rfl]
    simp

/-- The fold of `parseNatChars` over the digit rendering, started at 0. -/
theorem natChars_foldl (n : ℕ) :
    (natChars n).foldl (fun a c => a * 10 + (c.toNat - 48)) 0 = n := by
  by_cases h0 : n = 0
  · subst h0; decide
  · unfold natChars
    rw [if_neg h0, natCharsAux_foldl n n 0 le_rfl]
    simp

/-- The digit rendering is never empty. -/
theorem natChars_ne_nil (n : ℕ) : natChars n ≠ [] := by
  unfold natChars
  split
  · decide
  · exact natCharsAux_ne_nil n n (by assumption) (by assumption)

/-- Every character of the digit rendering is a decimal digit. -/
theorem natChars_isDigit (n : ℕ) : ∀ c ∈ natChars n, c.isDigit = true := by
  unfold natChars
  split
  · intro c hc
    simp only [List.mem_singleton] at hc
    subst hc; rfl
  · exact natCharsAux_isDigit n n

/-- A non-digit character never occurs in a digit rendering. -/
theorem not_mem_natChars {c : Char} (hc : c.isDigit = false) (n : ℕ) :
    c ∉ natChars n := by
  intro hmem
  have := natChars_isDigit n c hmem
  rw [hc] at this
  exact Bool.false_ne_true this

/-- The rendering of `n < 10^j` has at most `j` digits. -/
theorem natCharsAux_length_le : ∀ (fuel n j : ℕ), n ≤ fuel → n < 10 ^ j →
    (natCharsAux fuel n).length ≤ j := by
  intro fuel
  induction fuel with
  | zero =>
    intro n j hn _
    obtain rfl : n = 0 := by omega
    simp [natCharsAux]
  | succ fuel ih =>
    intro n j hn hj
    rcases n with - | n
    · simp [natCharsAux]
    · rcases j with - | j
      · simp at hj
      · have hdiv : (n + 1) / 10 < 10 ^ j := by
          rw [Nat.div_lt_iff_lt_mul (by norm_num)]
          calc n + 1 < 10 ^ (j + 1) := hj
          _ = 10 ^ j * 10 := by ring
        have hfuel : (n + 1) / 10 ≤ fuel := by
          have := Nat.div_lt_self (Nat.succ_pos n) (by norm_num : 1 < 10)
          omega
        simp only [natCharsAux, List.length_append, List.length_cons, List.length_nil]
        have := ih ((n + 1) / 10) j hfuel hdiv
        omega

theorem natChars_length_le (m j : ℕ) (hm : m < 10 ^ j) (hj : 1 ≤ j) :
    (natChars m).length ≤ j := by
  unfold natChars
  split
  · simpa using hj
  · exact natCharsAux_length_le m m j le_rfl hm

/-- The padded fraction rendering has exactly `k` characters. -/
theorem padDigits_length (k m : ℕ) (hm : m < 10 ^ k) (hk : 1 ≤ k) :
    (padDigits k m).length = k := by
  have := natChars_length_le m k hm hk
  simp only [padDigits, List.length_append, List.length_replicate]
  omega

/-- Leading zeros do not change the value read by the parse fold. -/
theorem foldl_zeros : ∀ z : ℕ,
    (List.replicate z '0').foldl (fun a c => a * 10 + (c.toNat - 48)) 0 = 0 := by
  intro z
  induction z with
  | zero => rfl
  | succ z ih => simpa [List.replicate_succ] using ih

/-- The padded fraction cell parses back to its value. -/
theorem parseNatChars_padDigits (k m : ℕ) : parseNatChars (padDigits k m) = some m := by
  unfold parseNatChars
  rw [if_pos ?cond]
  case cond =>
    constructor
    · simp [padDigits, natChars_ne_nil]
    · rw [List.all_eq_true]
      intro c hc
      simp only [padDigits, List.mem_append, List.mem_replicate] at hc
      rcases hc with ⟨-, rfl⟩ | hc
      · rfl
      · exact natChars_isDigit m c hc
  rw [padDigits, List.foldl_append, foldl_zeros, natChars_foldl]

/-- The padded fraction cell holds only digits, hence no point. -/
theorem not_mem_padDigits {c : Char} (hc : c.isDigit = false) (k m : ℕ) :
    c ∉ padDigits k m := by
  intro hmem
  simp only [padDigits, List.mem_append, List.mem_replicate] at hmem
  rcases hmem with ⟨-, rfl⟩ | hmem
  · simp at hc
  · exact not_mem_natChars hc m hmem

/-- `takeWhile`/`dropWhile` at the decimal point of a rendered number. -/
theorem takeDrop_dot (l2 : List Char) : ∀ l1 : List Char, (∀ c ∈ l1, c ≠ '.') →
    (l1 ++ '.' :: l2).takeWhile (fun c => c != '.') = l1 ∧
    (l1 ++ '.' :: l2).dropWhile (fun c => c != '.') = '.' :: l2 := by
  intro l1
  induction l1 with
  | nil => intro _; constructor <;> simp
  | cons c tl ih =>
    intro h
    have hc : (c != '.') = true := by
      simpa using h c (by simp)
    obtain ⟨ih1, ih2⟩ := ih (fun x hx => h x (by simp [hx]))
    constructor
    · simpa [List.takeWhile_cons, hc] using ih1
    · simpa [List.dropWhile_cons, hc] using ih2

/-- `takeWhile`/`dropWhile` on a point-free character list. -/
theorem takeDrop_no_dot : ∀ l : List Char, (∀ c ∈ l, c ≠ '.') →
    l.takeWhile (fun c => c != '.') = l ∧ l.dropWhile (fun c => c != '.') = [] := by
  intro l
  induction l with
  | nil => intro _; constructor <;> rfl
  | cons c tl ih =>
    intro h
    have hc : (c != '.') = true := by
      simpa using h c (by simp)
    obtain ⟨ih1, ih2⟩ := ih (fun x hx => h x (by simp [hx]))
    constructor
    · simpa [List.takeWhile_cons, hc] using ih1
    · simpa [List.dropWhile_cons, hc] using ih2

/-- The exponent search succeeds whenever a suitable exponent lies within
the fuel window, and its result clears the denominator. -/
theorem decScaleAux_some (den : ℕ) : ∀ (fuel j0 : ℕ),
    (∃ j, j0 ≤ j ∧ j < j0 + fuel ∧ 10 ^ j % den = 0) →
    ∃ k, decScaleAux den fuel j0 = some k ∧ 10 ^ k % den = 0 := by
  intro fuel
  induction fuel with
  | zero =>
    intro j0 hex
    obtain ⟨j, h1, h2, -⟩ := hex
    omega
  | succ fuel ih =>
    intro j0 hex
    obtain ⟨j, h1, h2, h3⟩ := hex
    by_cases h : 10 ^ j0 % den = 0
    · exact ⟨j0, by simp [decScaleAux, h], h⟩
    · have hstep : decScaleAux den (fuel + 1) j0 = decScaleAux den fuel (j0 + 1) := by
        simp [decScaleAux, h]
      rw [hstep]
      apply ih (j0 + 1)
      have hne : j ≠ j0 := fun he => h (he ▸ h3)
      exact ⟨j, by omega, by omega, h3⟩

/-- The scaled integer of the renderer equals `q * 10^k`. -/
theorem renderAmount_cast (q : ℚ) (hq : 0 ≤ q) (k : ℕ) (hdvd : q.den ∣ 10 ^ k) :
    ((q.num.toNat * 10 ^ k / q.den : ℕ) : ℚ) = q * 10 ^ k := by
  have hdvd2 : q.den ∣ q.num.toNat * 10 ^ k := hdvd.mul_left _
  rw [Nat.cast_div hdvd2 (Nat.cast_ne_zero.mpr q.den_nz)]
  have hnum : ((q.num.toNat : ℕ) : ℚ) = (q.num : ℚ) := by
    have h := Int.toNat_of_nonneg (Rat.num_nonneg.mpr hq)
    exact_mod_cast congrArg (fun z : ℤ => (z : ℚ)) h
  push_cast
  rw [hnum]
  conv_rhs => rw [← Rat.num_div_den q]
  ring

/-- The decimal rendering and parsing round-trip, for every nonnegative
amount with a terminating decimal expansion (every JavaScript float). -/
theorem parseAmount_renderAmount (q : ℚ) (h : IsDecimal q) :
    parseAmount (renderAmount q) = some q := by
  obtain ⟨hq, hden⟩ := h
  obtain ⟨k, hsA, hk⟩ := decScaleAux_some q.den (q.den + 1) 0
    ⟨q.den, by omega, by omega, Nat.mod_eq_zero_of_dvd hden⟩
  have hdvd : q.den ∣ 10 ^ k := Nat.dvd_of_mod_eq_zero hk
  obtain ⟨N, hNdef⟩ : ∃ N : ℕ, q.num.toNat * 10 ^ k / q.den = N := ⟨_, rfl⟩
  have hcast : ((N : ℕ) : ℚ) = q * 10 ^ k := by
    rw [← hNdef]
    exact renderAmount_cast q hq k hdvd
  have h10 : ((10 : ℚ)) ^ k ≠ 0 := by positivity
  have hqN : q = ((N : ℕ) : ℚ) / 10 ^ k := by
    rw [hcast, mul_div_assoc, div_self h10, mul_one]
  unfold renderAmount
  rw [hsA]
  dsimp only
  rw [hNdef]
  by_cases hk0 : k = 0
  · subst hk0
    rw [if_pos rfl]
    have hnodot : ∀ c ∈ natChars N, c ≠ '.' :=
      fun c hc he => not_mem_natChars (c := '.') (by decide) _ (he ▸ hc)
    unfold parseAmount
    rw [(takeDrop_no_dot _ hnodot).2, (takeDrop_no_dot _ hnodot).1,
      parseNatChars_natChars]
    show some ((N : ℕ) : ℚ) = some q
    rw [hqN, pow_zero, div_one]
  · rw [if_neg hk0]
    have hmod : N % 10 ^ k < 10 ^ k := Nat.mod_lt _ (by positivity)
    have hnodot : ∀ c ∈ natChars (N / 10 ^ k), c ≠ '.' :=
      fun c hc he => not_mem_natChars (c := '.') (by decide) _ (he ▸ hc)
    obtain ⟨htake, hdrop⟩ := takeDrop_dot (padDigits k (N % 10 ^ k)) _ hnodot
    unfold parseAmount
    rw [hdrop, htake]
    dsimp only
    rw [if_pos ⟨rfl, not_mem_padDigits (by decide) _ _⟩,
      parseNatChars_natChars, parseNatChars_padDigits]
    dsimp only
    rw [padDigits_length _ _ hmod (by omega)]
    congr 1
    rw [hqN]
    have hsplit : ((10 : ℚ)) ^ k * ((N / 10 ^ k : ℕ) : ℚ) + ((N % 10 ^ k : ℕ) : ℚ)
        = ((N : ℕ) : ℚ) := by
      exact_mod_cast Nat.div_add_mod N (10 ^ k)
    field_simp
    linarith [hsplit]

/-- The rendered amount cell contains no comma. -/
theorem renderAmount_no_comma (q : ℚ) : ',' ∉ renderAmount q := by
  unfold renderAmount
  intro hmem
  rcases hs : decScaleAux q.den (q.den + 1) 0 with - | k
  · rw [hs] at hmem
    exact not_mem_natChars (by decide) _ hmem
  · rw [hs] at hmem
    dsimp only at hmem
    by_cases hk0 : k = 0
    · subst hk0
      rw [if_pos rfl] at hmem
      exact not_mem_natChars (by decide) _ hmem
    · rw [if_neg hk0] at hmem
      simp only [List.mem_append, List.mem_cons] at hmem
      rcases hmem with hmem | hmem | hmem
      · exact not_mem_natChars (by decide) _ hmem
      · exact absurd hmem (by decide)
      · exact not_mem_padDigits (by decide) _ _ hmem

/-- The Yes/No rendering and decoding round-trip. -/
theorem decodeYesNo_recChars (b : Bool) : decodeYesNo (recChars b) = some b := by
  cases b <;> rfl

/-- One-step unfolding of `parseRow` on a quote-opened row. -/
theorem parseRow_quote (rest : List Char) :
    parseRow ('"' :: rest)
      = if rest.getLast? = some '"' then
          match splitSep rest.dropLast with
          | [d, ty, cat, amt, desc, rc] =>
            match parseAmount amt, decodeYesNo rc with
            | some a, some b =>
              some { date := d, ty := ty, category := cat, amount := a,
                     descr := desc, recurring := b }
            | _, _ => none
          | _ => none
        else none := rfl

/-- The row round-trip: a row whose four text cells are good and whose
amount is a nonnegative terminating decimal re-parses to exactly the
serialised tuple. -/
theorem parseRow_serializeRow (t : CsvTx)
    (h1 : goodField t.date) (h2 : goodField t.ty) (h3 : goodField t.category)
    (h4 : goodField t.descr) (h5 : IsDecimal t.amount) :
    parseRow (serializeRow t) = some t := by
  have hamt : goodField (renderAmount t.amount) :=
    goodField_of_no_comma (renderAmount_no_comma _)
  have hsplit : splitSep (rowBody t)
      = [t.date, t.ty, t.category, renderAmount t.amount, t.descr,
          recChars t.recurring] := by
    have hassoc : rowBody t
        = t.date ++ (sepChars ++ (t.ty ++ (sepChars ++ (t.category ++ (sepChars
            ++ (renderAmount t.amount ++ (sepChars ++ (t.descr ++ (sepChars
            ++ recChars t.recurring))))))))) := by
      simp [rowBody, List.append_assoc]
    rw [hassoc, splitSep_cell _ _ h1, splitSep_cell _ _ h2, splitSep_cell _ _ h3,
      splitSep_cell _ _ hamt, splitSep_cell _ _ h4,
      splitSep_single _ (not_infix_of_no_comma (recChars_no_comma _))]
  unfold serializeRow
  rw [parseRow_quote, List.getLast?_concat, if_pos rfl, List.dropLast_concat, hsplit]
  simp [parseAmount_renderAmount t.amount h5, decodeYesNo_recChars]

/-- C9, amended: `toCSV` emits the header row followed by exactly one row
per transaction, every cell double-quote-wrapped and `recurring` rendered
`Yes`/`No`; and whenever none of a transaction's text cells contains the
substring `","` or ends in `",` (`goodField`) and its amount is a
nonnegative number with a terminating decimal expansion (true of every
JavaScript float), re-parsing its row reconstructs the
`{date, type, category, amount, description, recurring}` tuple, decoding
`Yes`/`No` back to the boolean. -/
theorem csv_format_roundtrip (txs : List CsvTx) :
    toCSVLines txs = headerRow :: txs.map serializeRow ∧
    (∀ t ∈ txs, goodField t.date → goodField t.ty → goodField t.category →
      goodField t.descr → IsDecimal t.amount → parseRow (serializeRow t) = some t) :=
  ⟨rfl, fun t _ h1 h2 h3 h4 h5 => parseRow_serializeRow t h1 h2 h3 h4 h5⟩

/-- A transaction whose description contains the cell separator `","`. -/
def evilTx : CsvTx :=
  { date := "2024-01-01".toList, ty := "expense".toList, category := "food".toList,
    amount := 5, descr := ['a', '"', ',', '"', 'b'], recurring := false }

/-- C9, counterexample: the quote-wrapping performs no escaping, so the row
of a transaction whose description contains `","` splits into seven cells
and does not re-parse to the original tuple (the claim quantifies over
every transaction list). -/
theorem csv_roundtrip_cex :
    parseRow (serializeRow evilTx) = none ∧
    parseRow (serializeRow evilTx) ≠ some evilTx :=
  ⟨by decide, by decide⟩

/-- The fractional amount 10.5 = 21/2, built directly as a reduced
fraction. -/
def amount105 : ℚ := ⟨21, 2, by decide, by decide⟩

/-- A transaction with benign cells: a fractional amount of 10.5 and a
description with a bare comma, which the separator-based parse tolerates. -/
def niceTx : CsvTx :=
  { date := "2024-01-01".toList, ty := "expense".toList, category := "food".toList,
    amount := amount105, descr := "coffee, with milk".toList, recurring := true }

/-- C9, witness: the amended theorem applied to a one-transaction list
whose amount is the fractional 10.5. -/
theorem csv_format_roundtrip_witness :
    niceTx ∈ [niceTx] ∧ goodField niceTx.date ∧ goodField niceTx.ty ∧
    goodField niceTx.category ∧ goodField niceTx.descr ∧
    IsDecimal niceTx.amount ∧
    toCSVLines [niceTx] = headerRow :: [niceTx].map serializeRow ∧
    parseRow (serializeRow niceTx) = some niceTx :=
  ⟨by decide, by decide, by decide, by decide, by decide, ⟨by decide, by decide⟩,
    (csv_format_roundtrip [niceTx]).1,
    (csv_format_roundtrip [niceTx]).2 niceTx (by decide) (by decide) (by decide)
      (by decide) (by decide) ⟨by decide, by decide⟩⟩

end ExportManager

end MM
